import Mathlib

/-!
Verification development for the workout-dashboard parsing backend
(`src/main.py`).  The embedding models, faithfully to the source:

* Python's strict `json.loads` on JSON-valued text (objects, arrays,
  strings with escapes, numbers, booleans, null).  Numbers are modelled
  exactly as rationals instead of IEEE doubles.  The decoder omits two
  input forms CPython additionally accepts: the non-standard
  `NaN`/`Infinity`/`-Infinity` constants, and lone-surrogate `\uXXXX`
  escapes (whose decoded code points have no `Char` representative).
  The one theorem whose truth this boundary could affect, the no-raise
  carve-out of C2, therefore carries the explicit hypothesis
  `usesJsonExtensions raw.data = false`, confining it to raw outputs
  that contain none of those token shapes; there the ladder's decode
  successes, failures and candidate shapes agree with CPython's.
* the `/parse` handler `parse_text`: whitespace-strip short circuit,
  the two outbound chat messages, and the post-call response
  normalization (strict decode, code-fence stripping fallback,
  candidate extraction with Python truthiness and iteration semantics,
  and per-element `ParsedSet` validation).
* `ParsedSet` validation over JSON-decoded values with pydantic v2
  semantics: `Optional[str]` fields without a default are required but
  nullable; fields with defaults may be absent; `int` fields accept
  integral numbers; extra keys are ignored.  Lax string-to-number
  coercions of the validation library are not modelled; no claim
  depends on them.

Failures that CPython would raise and `parse_text` does not catch are
modelled as `Except.error`; the bare `except:` in the validation loop
is modelled by dropping the element.
-/

/-- The backtick character, written by code point. -/
def btChar : Char := '\x60'

/-- JSON whitespace accepted by Python's `json` module between tokens. -/
def isJsonWs (c : Char) : Bool := c = ' ' || c = '\t' || c = '\n' || c = '\r'

/-- Whitespace stripped by Python's `str.strip()`: the character set of
`str.isspace` (ASCII whitespace and separators, NEL, no-break space,
ogham space, the en-quad block, line and paragraph separators, narrow
and medium mathematical spaces, ideographic space). -/
def isPyWs (c : Char) : Bool :=
  isJsonWs c || c = '\x0b' || c = '\x0c' ||
  c = '\x1c' || c = '\x1d' || c = '\x1e' || c = '\x1f' ||
  c = '\x85' || c = '\xa0' || c = '\u1680' ||
  ('\u2000' ≤ c && c ≤ '\u200a') ||
  c = '\u2028' || c = '\u2029' || c = '\u202f' || c = '\u205f' || c = '\u3000'

/-- Drop leading JSON whitespace. -/
def skipWs (cs : List Char) : List Char := cs.dropWhile isJsonWs

/-- Python values that can result from `json.loads`. -/
inductive Json where
  | null : Json
  | bool (b : Bool) : Json
  | num (q : ℚ) : Json
  | str (s : String) : Json
  | arr (elems : List Json) : Json
  | obj (entries : List (String × Json)) : Json

/-- Dict lookup; entry lists built by the decoder have unique keys. -/
def lookupKey (kvs : List (String × Json)) (k : String) : Option Json :=
  match kvs with
  | [] => none
  | (k0, v0) :: rest => if k0 = k then some v0 else lookupKey rest k

/-- Remove every entry with the given key. -/
def eraseKey (kvs : List (String × Json)) (k : String) : List (String × Json) :=
  kvs.filter (fun kv => kv.1 != k)

/-- Combine the first member of an object with the already-combined
remaining members, with Python dict semantics: a duplicated key keeps
its first position but takes the last value. -/
def joinKV (k : String) (v : Json) (m : List (String × Json)) : List (String × Json) :=
  match lookupKey m k with
  | some v2 => (k, v2) :: eraseKey m k
  | none => (k, v) :: m

/-- Value of one hexadecimal digit. -/
def hexDigitVal (c : Char) : Option Nat :=
  if '0' ≤ c ∧ c ≤ '9' then some (c.toNat - 48)
  else if 'a' ≤ c ∧ c ≤ 'f' then some (c.toNat - 87)
  else if 'A' ≤ c ∧ c ≤ 'F' then some (c.toNat - 55)
  else none

/-- Value of a four-hex-digit escape. -/
def hex4 (a b c d : Char) : Option Nat := do
  let x1 ← hexDigitVal a
  let x2 ← hexDigitVal b
  let x3 ← hexDigitVal c
  let x4 ← hexDigitVal d
  pure (((x1 * 16 + x2) * 16 + x3) * 16 + x4)

/-- Translate a single-character JSON string escape. -/
def escChar (e : Char) : Option Char :=
  if e = '"' then some '"'
  else if e = '\\' then some '\\'
  else if e = '/' then some '/'
  else if e = 'b' then some '\x08'
  else if e = 'f' then some '\x0c'
  else if e = 'n' then some '\n'
  else if e = 'r' then some '\r'
  else if e = 't' then some '\t'
  else none

/-- Body of a JSON string after the opening quote: returns the decoded
characters and the input after the closing quote.  Control characters
are rejected (strict mode); `\uXXXX` escapes combine surrogate pairs.
Lone surrogates (which CPython would keep) cannot inhabit `Char` and
are out of scope; the no-raise theorem of C2 conditions on their
absence through `usesJsonExtensions`. -/
def parseStringBody : Nat → List Char → Option (List Char × List Char)
  | 0, _ => none
  | fuel + 1, cs0 =>
    match cs0 with
    | [] => none
    | c :: cs =>
    if c = '"' then some ([], cs)
    else if c = '\\' then
      match cs with
      | [] => none
      | e :: cs2 =>
        if e = 'u' then
          match cs2 with
          | h1 :: h2 :: h3 :: h4 :: cs3 =>
            match hex4 h1 h2 h3 h4 with
            | none => none
            | some code =>
              if code < 0xd800 ∨ 0xe000 ≤ code then
                match parseStringBody fuel cs3 with
                | some (sl, r) => some (Char.ofNat code :: sl, r)
                | none => none
              else if code ≤ 0xdbff then
                match cs3 with
                | b1 :: u2 :: h5 :: h6 :: h7 :: h8 :: cs4 =>
                  if b1 = '\\' ∧ u2 = 'u' then
                    match hex4 h5 h6 h7 h8 with
                    | some code2 =>
                      if 0xdc00 ≤ code2 ∧ code2 ≤ 0xdfff then
                        match parseStringBody fuel cs4 with
                        | some (sl, r) =>
                          some (Char.ofNat (0x10000 + (code - 0xd800) * 0x400 + (code2 - 0xdc00)) :: sl, r)
                        | none => none
                      else none
                    | none => none
                  else none
                | _ => none
              else none
          | _ => none
        else
          match escChar e with
          | none => none
          | some ec =>
            match parseStringBody fuel cs2 with
            | some (sl, r) => some (ec :: sl, r)
            | none => none
    else if c.toNat < 0x20 then none
    else
      match parseStringBody fuel cs with
      | some (sl, r) => some (c :: sl, r)
      | none => none

/-- Numeric value of a digit string. -/
def digitsToNat (ds : List Char) : Nat := ds.foldl (fun n c => 10 * n + (c.toNat - 48)) 0

/-- Take a nonempty maximal run of decimal digits. -/
def parseDigits (cs : List Char) : Option (List Char × List Char) :=
  match cs.takeWhile Char.isDigit with
  | [] => none
  | ds => some (ds, cs.dropWhile Char.isDigit)

/-- Optional exponent part of a JSON number. -/
def parseExpPart (q : ℚ) (cs : List Char) : Option (ℚ × List Char) :=
  match cs with
  | c :: r =>
    if c = 'e' ∨ c = 'E' then
      match r with
      | s :: r2 =>
        if s = '+' then
          match parseDigits r2 with
          | some (ds, r3) => some (q * 10 ^ digitsToNat ds, r3)
          | none => none
        else if s = '-' then
          match parseDigits r2 with
          | some (ds, r3) => some (q / 10 ^ digitsToNat ds, r3)
          | none => none
        else
          match parseDigits r with
          | some (ds, r3) => some (q * 10 ^ digitsToNat ds, r3)
          | none => none
      | [] => none
    else some (q, c :: r)
  | [] => some (q, [])

/-- Optional fraction part (then exponent) of a JSON number. -/
def parseFracPart (ip : ℚ) (cs : List Char) : Option (ℚ × List Char) :=
  match cs with
  | c :: r =>
    if c = '.' then
      match parseDigits r with
      | some (ds, r2) => parseExpPart (ip + (digitsToNat ds : ℚ) / 10 ^ ds.length) r2
      | none => none
    else parseExpPart ip (c :: r)
  | [] => some (ip, [])

/-- Unsigned JSON number: integer part `0` or a nonzero-led digit run
(matching the `0|[1-9][0-9]*` rule of the grammar), then fraction and
exponent. -/
def parseNumAbs (cs : List Char) : Option (ℚ × List Char) :=
  match cs with
  | c :: r =>
    if c = '0' then parseFracPart 0 r
    else if c.isDigit then
      match parseDigits (c :: r) with
      | some (ds, r1) => parseFracPart (digitsToNat ds : ℚ) r1
      | none => none
    else none
  | [] => none

/-- JSON number with optional leading minus sign. -/
def parseNum (cs : List Char) : Option (ℚ × List Char) :=
  match cs with
  | c :: r =>
    if c = '-' then
      match parseNumAbs r with
      | some (q, rest) => some (-q, rest)
      | none => none
    else parseNumAbs (c :: r)
  | [] => none

/-- Expect the exact literal characters at the head of the input and
return the input after them. -/
def expectLit (lit : List Char) (cs : List Char) : Option (List Char) :=
  match lit with
  | [] => some cs
  | l :: ls =>
    match cs with
    | c :: rest => if c = l then expectLit ls rest else none
    | [] => none

mutual

/-- One JSON value, starting at a non-whitespace character.  The fuel
argument only bounds the recursion depth; `loads` supplies enough. -/
def parseValue : Nat → List Char → Option (Json × List Char)
  | 0, _ => none
  | fuel + 1, cs =>
    match cs with
    | [] => none
    | c :: rest =>
      if c = 'n' then
        match expectLit ['u', 'l', 'l'] rest with
        | some r => some (Json.null, r)
        | none => none
      else if c = 't' then
        match expectLit ['r', 'u', 'e'] rest with
        | some r => some (Json.bool true, r)
        | none => none
      else if c = 'f' then
        match expectLit ['a', 'l', 's', 'e'] rest with
        | some r => some (Json.bool false, r)
        | none => none
      else if c = '"' then
        match parseStringBody (rest.length + 1) rest with
        | some (sl, r) => some (Json.str (String.mk sl), r)
        | none => none
      else if c = '[' then
        match skipWs rest with
        | c2 :: r2 =>
          if c2 = ']' then some (Json.arr [], r2)
          else
            match parseElems fuel (skipWs rest) with
            | some (l, r) => some (Json.arr l, r)
            | none => none
        | [] => none
      else if c = '\x7b' then
        match skipWs rest with
        | c2 :: r2 =>
          if c2 = '\x7d' then some (Json.obj [], r2)
          else
            match parseMembers fuel (skipWs rest) with
            | some (m, r) => some (Json.obj m, r)
            | none => none
        | [] => none
      else if c = '-' ∨ c.isDigit then
        match parseNum (c :: rest) with
        | some (q, r) => some (Json.num q, r)
        | none => none
      else none

/-- Elements of a nonempty JSON array, up to and including the closing
bracket. -/
def parseElems : Nat → List Char → Option (List Json × List Char)
  | 0, _ => none
  | fuel + 1, cs =>
    match parseValue fuel cs with
    | some (v, r1) =>
      match skipWs r1 with
      | c :: r2 =>
        if c = ']' then some ([v], r2)
        else if c = ',' then
          match parseElems fuel (skipWs r2) with
          | some (l, r) => some (v :: l, r)
          | none => none
        else none
      | [] => none
    | none => none

/-- Members of a nonempty JSON object, up to and including the closing
brace, combined with Python dict duplicate-key semantics. -/
def parseMembers : Nat → List Char → Option (List (String × Json) × List Char)
  | 0, _ => none
  | fuel + 1, cs =>
    match cs with
    | c :: rest =>
      if c = '"' then
        match parseStringBody (rest.length + 1) rest with
        | some (kl, r1) =>
          match skipWs r1 with
          | c2 :: r2 =>
            if c2 = ':' then
              match parseValue fuel (skipWs r2) with
              | some (v, r3) =>
                match skipWs r3 with
                | c3 :: r4 =>
                  if c3 = '\x7d' then some ([(String.mk kl, v)], r4)
                  else if c3 = ',' then
                    match parseMembers fuel (skipWs r4) with
                    | some (m, r) => some (joinKV (String.mk kl) v m, r)
                    | none => none
                  else none
                | [] => none
              | none => none
            else none
          | [] => none
        | none => none
      else none
    | [] => none

end

/-- Python's strict `json.loads`: skip leading whitespace, parse one
value, and require the remainder to be whitespace. -/
def loads (s : String) : Option Json :=
  match parseValue (2 * s.length + 2) (skipWs s.data) with
  | some (v, rest) => if rest.all isJsonWs then some v else none
  | none => none

/-- Character-list form of Python's `str.strip()`. -/
def stripChars (cs : List Char) : List Char :=
  ((cs.dropWhile isPyWs).reverse.dropWhile isPyWs).reverse

/-- Python's `str.strip()`. -/
def pyStrip (s : String) : String := String.mk (stripChars s.data)

/-- Whether the text begins with a triple-backtick fence marker
(`str.startswith` of the fence). -/
def startsFence : List Char → Bool
  | c1 :: c2 :: c3 :: _ => c1 = btChar && c2 = btChar && c3 = btChar
  | _ => false

/-- Everything after the first triple-backtick occurrence, if any. -/
def splitAfterFence : List Char → Option (List Char)
  | c1 :: c2 :: c3 :: rest2 =>
    if c1 = btChar ∧ c2 = btChar ∧ c3 = btChar then some rest2
    else splitAfterFence (c2 :: c3 :: rest2)
  | _ => none

/-- Everything before the next triple-backtick occurrence. -/
def takeToFence : List Char → List Char
  | c1 :: c2 :: c3 :: rest =>
    if c1 = btChar ∧ c2 = btChar ∧ c3 = btChar then []
    else c1 :: takeToFence (c2 :: c3 :: rest)
  | rest => rest

/-- Whether a triple-backtick occurs anywhere in the text. -/
def hasFence : List Char → Bool
  | c1 :: c2 :: c3 :: rest => (c1 = btChar && c2 = btChar && c3 = btChar) || hasFence (c2 :: c3 :: rest)
  | _ => false

/-- Python's `s.split("\x60\x60\x60", 2)[1]`: the text between the
first pair of fence markers (`none` models the `IndexError` when no
fence occurs, which the code absorbs with `pass`). -/
def fenceSecondPart (s : String) : Option String :=
  (splitAfterFence s.data).map (fun r => String.mk (takeToFence r))

/-- The decode ladder of `main.py` lines 131-145: strict decode of the raw model
output, fence-stripping fallback on failure, and the final
`\x7b"sets": []\x7d` default. -/
def normalizeRaw (raw : String) : Json :=
  match loads raw with
  | some obj => obj
  | none =>
    let cleaned := pyStrip raw
    let cleaned2 :=
      if startsFence cleaned.data then
        match fenceSecondPart cleaned with
        | some inner => inner
        | none => cleaned
      else cleaned
    match loads cleaned2 with
    | some obj => obj
    | none => Json.obj [("sets", Json.arr [])]

/-- Python truthiness of a JSON-derived value. -/
def pyTruthy : Json → Bool
  | Json.null => false
  | Json.bool b => b
  | Json.num q => decide (q ≠ 0)
  | Json.str s => decide (s ≠ "")
  | Json.arr l => !l.isEmpty
  | Json.obj m => !m.isEmpty

/-- The uncaught Python exception the handler can raise after the model
call: iterating a non-iterable candidate. -/
inductive PyErr where
  | typeError : PyErr
deriving DecidableEq, Repr

/-- Python iteration over a JSON-derived value: lists yield elements,
strings yield one-character strings, dicts yield their keys, and
everything else raises `TypeError`. -/
def pyIterate : Json → Except PyErr (List Json)
  | Json.str s => Except.ok (s.data.map (fun c => Json.str (String.mk [c])))
  | Json.arr l => Except.ok l
  | Json.obj m => Except.ok (m.map (fun kv => Json.str kv.1))
  | _ => Except.error PyErr.typeError

/-- Whether Python iteration over the value would succeed. -/
def pyIterable : Json → Bool
  | Json.str _ => true
  | Json.arr _ => true
  | Json.obj _ => true
  | _ => false

/-- Candidate extraction of `main.py` lines 147-151:
`candidate = obj.get("sets") or []` when the decoded value is a dict
containing `"sets"`, the bare-array fallback otherwise. -/
def extractCandidate : Json → Json
  | Json.obj kvs =>
    match lookupKey kvs "sets" with
    | some v => if pyTruthy v then v else Json.arr []
    | none => Json.arr []
  | Json.arr l => Json.arr l
  | _ => Json.arr []

/-- Whether the text contains one of the `json.loads` input forms that
the embedded decoder does not model: the non-standard `NaN` and
`Infinity`/`-Infinity` constants, or a `\uXXXX` escape in the
surrogate range.  The scan is a sound over-approximation: it also
flags these token shapes when they only occur inside ordinary string
values, where both decoders agree. -/
def usesJsonExtensions : List Char → Bool
  | [] => false
  | c :: rest =>
    (match c :: rest with
      | 'N' :: 'a' :: 'N' :: _ => true
      | 'I' :: 'n' :: 'f' :: 'i' :: 'n' :: 'i' :: 't' :: 'y' :: _ => true
      | '\\' :: 'u' :: d :: x :: _ =>
        (d = 'd' || d = 'D') &&
          (match hexDigitVal x with
            | some n => decide (8 ≤ n)
            | none => false)
      | _ => false)
    || usesJsonExtensions rest

/-- The decoded value is a dict whose `"sets"` entry is truthy but not
iterable, the one shape on which the validation loop raises. -/
def setsBadCandidate : Json → Bool
  | Json.obj kvs =>
    match lookupKey kvs "sets" with
    | some v => pyTruthy v && !pyIterable v
    | none => false
  | _ => false

/-- The `ParsedSet` record of `main.py` lines 26-38.  Field names,
types and defaults follow the source; numeric fields are exact. -/
structure ParsedSet where
  date : Option String
  exercise_name : String
  weight : ℚ
  reps_unassisted : ℤ
  reps_assisted : ℤ
  reps_total : ℤ
  tempo_notes : Option String := some ""
  injury_flag : Bool := false
  injury_notes : Option String := some ""
  equipment : Option String := some ""
  source_line : Option String := some ""
  notes : Option String := some ""
deriving DecidableEq, Repr

/-- Required `Optional[str]` field (present, null or string). -/
def reqOptStr (kvs : List (String × Json)) (k : String) : Option (Option String) :=
  match lookupKey kvs k with
  | some Json.null => some none
  | some (Json.str s) => some (some s)
  | _ => none

/-- Required `str` field. -/
def reqStr (kvs : List (String × Json)) (k : String) : Option String :=
  match lookupKey kvs k with
  | some (Json.str s) => some s
  | _ => none

/-- Required `float` field: any JSON number. -/
def reqNum (kvs : List (String × Json)) (k : String) : Option ℚ :=
  match lookupKey kvs k with
  | some (Json.num q) => some q
  | _ => none

/-- Required `int` field: an integral JSON number. -/
def reqInt (kvs : List (String × Json)) (k : String) : Option ℤ :=
  match lookupKey kvs k with
  | some (Json.num q) => if q.den = 1 then some q.num else none
  | _ => none

/-- `Optional[str]` field with default `""`. -/
def optStrD (kvs : List (String × Json)) (k : String) : Option (Option String) :=
  match lookupKey kvs k with
  | none => some (some "")
  | some Json.null => some none
  | some (Json.str s) => some (some s)
  | _ => none

/-- `bool` field with default `False`. -/
def optBoolD (kvs : List (String × Json)) (k : String) : Option Bool :=
  match lookupKey kvs k with
  | none => some false
  | some (Json.bool b) => some b
  | _ => none

/-- `ParsedSet(**item)`: field-wise validation of one candidate
element.  `none` models the exception the bare `except:` absorbs;
unknown keys are ignored. -/
def mkParsedSet : Json → Option ParsedSet
  | Json.obj kvs => do
    let d ← reqOptStr kvs "date"
    let n ← reqStr kvs "exercise_name"
    let w ← reqNum kvs "weight"
    let ru ← reqInt kvs "reps_unassisted"
    let ra ← reqInt kvs "reps_assisted"
    let rt ← reqInt kvs "reps_total"
    let tn ← optStrD kvs "tempo_notes"
    let fl ← optBoolD kvs "injury_flag"
    let inj ← optStrD kvs "injury_notes"
    let eqp ← optStrD kvs "equipment"
    let sl ← optStrD kvs "source_line"
    let nts ← optStrD kvs "notes"
    some ⟨d, n, w, ru, ra, rt, tn, fl, inj, eqp, sl, nts⟩
  | _ => none

/-- The validation loop of `main.py` lines 154-160: keep successes in
order, silently skip failures. -/
def validateItems : List Json → List ParsedSet
  | [] => []
  | item :: rest =>
    match mkParsedSet item with
    | some p => p :: validateItems rest
    | none => validateItems rest

/-- The post-model-call portion of `parse_text` (lines 128-162), from
the raw model output text to the response payload (or an uncaught
exception). -/
def postCall (raw : String) : Except PyErr (List ParsedSet) :=
  match pyIterate (extractCandidate (normalizeRaw raw)) with
  | Except.ok items => Except.ok (validateItems items)
  | Except.error e => Except.error e

/-- One chat message of the outbound completion request. -/
structure ChatMessage where
  role : String
  content : String
deriving DecidableEq, Repr

/-- The fixed extraction prompt of `main.py` lines 51-103, verbatim. -/
def PROMPT : String :=
  "\nYou are a strict workout-log parser. Your job:\n\nINPUT:\nA raw block of text containing informal workout notes, often messy.\nEach \"line\" usually includes:\n- exercise name (with typos)\n- weight\n- reps (may include assisted)\n- date sometimes\n- tempo notes (e.g., 3-1-1)\n- injury notes (like \"hurt back\", \"twinge\", \"ankle pain\")\n- DB means dumbbells (weight is PER HAND unless single arm mentioned)\n- BB means barbell\n\nOUTPUT:\nYou MUST return a JSON OBJECT with a single key \"sets\" whose value is an array\nof objects, each object describing ONE set, using this schema:\n\n\x7b\n  \"sets\": [\n    \x7b\n      \"date\": \"YYYY-MM-DD or empty if not present\",\n      \"exercise_name\": \"Standardized name including equipment; e.g., \x27DB Bench Press\x27\",\n      \"weight\": number,\n      \"reps_unassisted\": number,\n      \"reps_assisted\": number,\n      \"reps_total\": number,\n      \"tempo_notes\": \"freeform string\",\n      \"injury_flag\": boolean,\n      \"injury_notes\": \"string if injury_flag true\",\n      \"equipment\": \"DB or BB or BW or Machine, etc.\",\n      \"source_line\": \"raw input line\",\n      \"notes\": \"anything leftover\"\n    \x7d\n  ]\n\x7d\n\nRULES:\n- Standardize exercise names; fix typos.\n- If DB: weight applies PER HAND unless \"single arm\" or similar.\n- Assisted reps appear in parentheses: e.g. \"8(2)\" means 8 total, 2 assisted, 6 unassisted.\n- If no assisted reps, reps_assisted = 0.\n- reps_total = reps_unassisted + reps_assisted.\n- Identify injury indicators: hurt, pain, tweak, strain, back issue, etc.\n  If any present, set injury_flag=true and describe it in injury_notes.\n- Tempo like \"3-1-1\" goes to tempo_notes.\n- If no explicit date, leave date empty.\n- equipment: DB, BB, BW, Machine, Cable, etc.\n\nYour output MUST be valid JSON with NO commentary, NO trailing text.\nOnly return the JSON object with the \"sets\" array.\n"

/-- The pre-call portion of `parse_text` (lines 113-126): strip the
request text; `none` is the empty short circuit that performs no
outbound call, otherwise the exact two-message exchange sent to the
model. -/
def requestOf (reqText : String) : Option (List ChatMessage) :=
  let text := pyStrip reqText
  if text = "" then none
  else some [⟨"system", PROMPT⟩, ⟨"user", text⟩]

/-- The whole `/parse` handler, with the external model abstracted as a
function from the outbound messages to its raw textual output. -/
def parse_text (llm : List ChatMessage → String) (reqText : String) : Except PyErr (List ParsedSet) :=
  match requestOf reqText with
  | none => Except.ok []
  | some msgs => postCall (llm msgs)

/-- Python falsiness of `os.environ.get(...)`: absent or empty. -/
def envFalsy : Option String → Bool
  | none => true
  | some s => s == ""

/-- Module initialization of `main.py` lines 13-17: given the value of
the `OPENAI_API_KEY` environment variable, either raise (so the process
never starts serving) or proceed with the key. -/
def startupCheck (envVal : Option String) : Except String String :=
  if envFalsy envVal then Except.error "Missing OPENAI_API_KEY env var."
  else Except.ok (envVal.getD "")

/-- Wrap a payload in triple-backtick fence markers. -/
def wrapFence (p : String) : String := "```" ++ p ++ "```"

/-- The schema field names of `ParsedSet`. -/
def isSchemaField (k : String) : Bool :=
  k = "date" || k = "exercise_name" || k = "weight" || k = "reps_unassisted" ||
  k = "reps_assisted" || k = "reps_total" || k = "tempo_notes" || k = "injury_flag" ||
  k = "injury_notes" || k = "equipment" || k = "source_line" || k = "notes"

/-- The worked example of the specification: raw model output for one
fully populated set. -/
def exRaw1 : String :=
  "\x7b\"sets\":[\x7b\"date\":\"\",\"exercise_name\":\"DB Bench Press\",\"weight\":50,\"reps_unassisted\":6,\"reps_assisted\":2,\"reps_total\":8,\"tempo_notes\":\"3-1-1\",\"injury_flag\":true,\"injury_notes\":\"twinge in shoulder\",\"equipment\":\"DB\",\"source_line\":\"DB Bench 50x8(2) 3-1-1 felt a twinge in shoulder\",\"notes\":\"\"\x7d]\x7d"

/-- Entries of the single set object in `exRaw1`, as decoded. -/
def exItem1 : List (String × Json) :=
  [("date", Json.str ""), ("exercise_name", Json.str "DB Bench Press"),
   ("weight", Json.num 50), ("reps_unassisted", Json.num 6),
   ("reps_assisted", Json.num 2), ("reps_total", Json.num 8),
   ("tempo_notes", Json.str "3-1-1"), ("injury_flag", Json.bool true),
   ("injury_notes", Json.str "twinge in shoulder"), ("equipment", Json.str "DB"),
   ("source_line", Json.str "DB Bench 50x8(2) 3-1-1 felt a twinge in shoulder"),
   ("notes", Json.str "")]

/-- The validated record for `exItem1`. -/
def exSet1 : ParsedSet :=
  ⟨some "", "DB Bench Press", 50, 6, 2, 8, some "3-1-1", true,
   some "twinge in shoulder", some "DB",
   some "DB Bench 50x8(2) 3-1-1 felt a twinge in shoulder", some ""⟩

/-- A valid JSON payload that contains a triple backtick inside a
string value. -/
def c4Payload : String :=
  "\x7b\"sets\":[\x7b\"date\":null,\"exercise_name\":\"x```y\",\"weight\":1,\"reps_unassisted\":1,\"reps_assisted\":0,\"reps_total\":1\x7d]\x7d"

/-- The validated record for the single set of `c4Payload`. -/
def c4Set : ParsedSet :=
  ⟨none, "x```y", 1, 1, 0, 1, some "", false, some "", some "", some "", some ""⟩

/-- A well-formed candidate element (all required fields present). -/
def sampleGood : Json :=
  Json.obj [("date", Json.null), ("exercise_name", Json.str "Row"),
            ("weight", Json.num 100), ("reps_unassisted", Json.num 5),
            ("reps_assisted", Json.num 0), ("reps_total", Json.num 5)]

/-- The validated record for `sampleGood`. -/
def sampleGoodSet : ParsedSet :=
  ⟨none, "Row", 100, 5, 0, 5, some "", false, some "", some "", some "", some ""⟩

/-- A candidate element missing required fields. -/
def sampleBad : Json :=
  Json.obj [("date", Json.null), ("exercise_name", Json.str "Curl")]

/-- Raw model output whose only candidate element lacks the required
numeric fields. -/
def squatRaw : String := "\x7b\"sets\":[\x7b\"exercise_name\":\"Squat\"\x7d]\x7d"

/-- Raw model output with three malformed candidate elements. -/
def c7Raw : String := "\x7b\"sets\": [1, 2, 3]\x7d"

/-- The candidate list the handler iterates for `c7Raw`. -/
def c7Cand : List Json := [Json.num 1, Json.num 2, Json.num 3]

/-- An optional string field of the record carries exactly the value
of the corresponding entry (or its default when absent). -/
def strFieldPres (kvs : List (String × Json)) (k : String) (x : Option String) : Prop :=
  (lookupKey kvs k = none ∧ x = some "") ∨
  (lookupKey kvs k = some Json.null ∧ x = none) ∨
  ∃ s, lookupKey kvs k = some (Json.str s) ∧ x = some s

/-- Every field of a validated record is the candidate entry of the
same name, passed through unchanged (with declared defaults for absent
optional fields). -/
def fieldsPreserved (kvs : List (String × Json)) (p : ParsedSet) : Prop :=
  ((lookupKey kvs "date" = some Json.null ∧ p.date = none) ∨
    ∃ s, lookupKey kvs "date" = some (Json.str s) ∧ p.date = some s) ∧
  lookupKey kvs "exercise_name" = some (Json.str p.exercise_name) ∧
  lookupKey kvs "weight" = some (Json.num p.weight) ∧
  lookupKey kvs "reps_unassisted" = some (Json.num (p.reps_unassisted : ℚ)) ∧
  lookupKey kvs "reps_assisted" = some (Json.num (p.reps_assisted : ℚ)) ∧
  lookupKey kvs "reps_total" = some (Json.num (p.reps_total : ℚ)) ∧
  strFieldPres kvs "tempo_notes" p.tempo_notes ∧
  ((lookupKey kvs "injury_flag" = none ∧ p.injury_flag = false) ∨
    lookupKey kvs "injury_flag" = some (Json.bool p.injury_flag)) ∧
  strFieldPres kvs "injury_notes" p.injury_notes ∧
  strFieldPres kvs "equipment" p.equipment ∧
  strFieldPres kvs "source_line" p.source_line ∧
  strFieldPres kvs "notes" p.notes

instance {ε α : Type} [DecidableEq ε] [DecidableEq α] : DecidableEq (Except ε α) := fun a b =>
  match a, b with
  | Except.ok x, Except.ok y =>
    if h : x = y then isTrue (by rw [h]) else isFalse (by intro hc; cases hc; exact h rfl)
  | Except.error x, Except.error y =>
    if h : x = y then isTrue (by rw [h]) else isFalse (by intro hc; cases hc; exact h rfl)
  | Except.ok _, Except.error _ => isFalse (by intro hc; cases hc)
  | Except.error _, Except.ok _ => isFalse (by intro hc; cases hc)

/-- The validation loop is the filter-map of per-element validation. -/
theorem validateItems_eq_filterMap (items : List Json) :
    validateItems items = List.filterMap mkParsedSet items := by
  induction items with
  | nil => rfl
  | cons item rest ih =>
    unfold validateItems
    rw [List.filterMap_cons]
    cases h : mkParsedSet item <;> simp [h, ih]

/-- A successfully decoded raw output is normalized to its value. -/
theorem normalizeRaw_of_loads {raw : String} {v : Json} (h : loads raw = some v) :
    normalizeRaw raw = v := by
  unfold normalizeRaw
  rw [h]

/-- Stripping yields empty exactly on all-whitespace text. -/
theorem stripChars_eq_nil_iff (cs : List Char) :
    stripChars cs = [] ↔ cs.all isPyWs = true := by
  unfold stripChars
  constructor
  · intro h
    have h1 : (cs.dropWhile isPyWs).reverse.dropWhile isPyWs = [] := by
      have := congrArg List.reverse h
      simpa using this
    have h2 : ∀ x ∈ (cs.dropWhile isPyWs).reverse, isPyWs x = true :=
      List.dropWhile_eq_nil_iff.mp h1
    have h3 : ∀ x ∈ cs.dropWhile isPyWs, isPyWs x = true := by
      intro x hx
      exact h2 x (by simpa using hx)
    rw [List.all_eq_true]
    intro x hx
    have hx2 : x ∈ cs.takeWhile isPyWs ++ cs.dropWhile isPyWs := by
      rw [List.takeWhile_append_dropWhile]
      exact hx
    rcases List.mem_append.mp hx2 with hx' | hx'
    · exact List.mem_takeWhile_imp hx'
    · exact h3 x hx'
  · intro h
    have h1 : cs.dropWhile isPyWs = [] :=
      List.dropWhile_eq_nil_iff.mpr (fun x hx => List.all_eq_true.mp h x hx)
    rw [h1]
    rfl

/-- The stripped request text is empty exactly on all-whitespace input. -/
theorem pyStrip_eq_empty_iff (s : String) :
    pyStrip s = "" ↔ s.data.all isPyWs = true := by
  unfold pyStrip
  rw [← stripChars_eq_nil_iff]
  constructor
  · intro h
    have : (String.mk (stripChars s.data)).data = ("" : String).data := by rw [h]
    simpa using this
  · intro h
    rw [h]

/-- The short circuit fires exactly when the stripped text is empty. -/
theorem requestOf_eq_none_iff (t : String) : requestOf t = none ↔ pyStrip t = "" := by
  unfold requestOf
  by_cases h : pyStrip t = "" <;> simp [h]

/-- Claim C3: empty or all-whitespace request text short-circuits to an
empty result with no outbound call, and this is the only branch that
avoids the call. -/
theorem c3_empty_short_circuit (reqText : String) (llm : List ChatMessage → String) :
    (reqText.data.all isPyWs = true →
      parse_text llm reqText = Except.ok [] ∧ requestOf reqText = none) ∧
    (requestOf reqText = none → reqText.data.all isPyWs = true) := by
  constructor
  · intro h
    have hn : requestOf reqText = none :=
      (requestOf_eq_none_iff reqText).mpr ((pyStrip_eq_empty_iff reqText).mpr h)
    refine ⟨?_, hn⟩
    unfold parse_text
    rw [hn]
  · intro h
    exact (pyStrip_eq_empty_iff reqText).mp ((requestOf_eq_none_iff reqText).mp h)

/-- Witness for C3 at a concrete whitespace-only request. -/
theorem c3_witness :
    (("  " : String).data.all isPyWs = true) ∧
    (parse_text (fun _ => "output") "  " = Except.ok [] ∧ requestOf "  " = none) :=
  ⟨by decide, (c3_empty_short_circuit "  " (fun _ => "output")).1 (by decide)⟩

/-- Counterexample for C2: a raw model output on which the normalizer
raises an uncaught TypeError, so the handler does not produce a 200
response. -/
theorem c2_counterexample :
    postCall "\x7b\"sets\": 5\x7d" = Except.error PyErr.typeError ∧
    parse_text (fun _ => "\x7b\"sets\": 5\x7d") "bench 5x5" = Except.error PyErr.typeError :=
  ⟨rfl, rfl⟩

/-- Claim C2 as amended: for every raw model output free of the
decoder extensions the model does not represent (`NaN`/`Infinity`
constants and surrogate escapes, scanned by `usesJsonExtensions`), the
post-call normalizer returns a result without raising, except when the
output decodes to an object whose sets entry is truthy and
non-iterable.  On that guarded domain the embedded ladder's decode
successes, failures and candidate shapes agree with CPython's, so the
carve-out is exact. -/
theorem c2_no_raise (raw : String) (hext : usesJsonExtensions raw.data = false)
    (h : setsBadCandidate (normalizeRaw raw) = false) :
    ∃ out, postCall raw = Except.ok out := by
  unfold postCall
  rcases ho : normalizeRaw raw with _ | b | q | s | l | kvs
  · exact ⟨[], rfl⟩
  · exact ⟨[], rfl⟩
  · exact ⟨[], rfl⟩
  · exact ⟨[], rfl⟩
  · exact ⟨validateItems l, rfl⟩
  · rw [ho] at h
    rcases hl : lookupKey kvs "sets" with _ | v
    · exact ⟨[], by simp [extractCandidate, hl, pyIterate, validateItems]⟩
    · simp only [setsBadCandidate, hl] at h
      by_cases ht : pyTruthy v = true
      · have hit : pyIterable v = true := by
          rw [ht] at h
          simpa using h
        rcases v with _ | b | q | s | l2 | kvs2
        · simp [pyIterable] at hit
        · simp [pyIterable] at hit
        · simp [pyIterable] at hit
        · exact ⟨validateItems (s.data.map (fun c => Json.str (String.mk [c]))),
            by simp [extractCandidate, hl, ht, pyIterate]⟩
        · exact ⟨validateItems l2, by simp [extractCandidate, hl, ht, pyIterate]⟩
        · exact ⟨validateItems (kvs2.map (fun kv => Json.str kv.1)),
            by simp [extractCandidate, hl, ht, pyIterate]⟩
      · have ht' : pyTruthy v = false := by
          rcases hb : pyTruthy v
          · rfl
          · exact absurd hb ht
        exact ⟨[], by simp [extractCandidate, hl, ht', pyIterate, validateItems]⟩

/-- Witness for the amended C2 at a concrete garbage raw output. -/
theorem c2_witness :
    usesJsonExtensions ("nonsense" : String).data = false ∧
    setsBadCandidate (normalizeRaw "nonsense") = false ∧
    ∃ out, postCall "nonsense" = Except.ok out :=
  ⟨rfl, rfl, c2_no_raise "nonsense" rfl rfl⟩

/-- Claim C5: malformed candidate elements are dropped individually,
every validated element is kept in order, and the concrete examples of
the specification behave as stated. -/
theorem c5_discard_malformed :
    (∀ items : List Json, validateItems items = List.filterMap mkParsedSet items) ∧
    validateItems [sampleGood, sampleBad] = [sampleGoodSet] ∧
    mkParsedSet sampleBad = none ∧
    postCall squatRaw = Except.ok [] :=
  ⟨validateItems_eq_filterMap, rfl, rfl, rfl⟩

/-- Counterexample for C6: the forwarded user message contains the
stripped text, not the input text itself. -/
theorem c6_counterexample :
    requestOf " hi " = some [⟨"system", PROMPT⟩, ⟨"user", "hi"⟩] ∧
    (" hi " : String) ≠ "hi" :=
  ⟨rfl, by decide⟩

/-- Claim C6 as amended: for nonempty stripped text the client builds
exactly two messages, the fixed system prompt and a user message whose
content is exactly the whitespace-trimmed input text. -/
theorem c6_two_messages (t : String) (h : pyStrip t ≠ "") :
    requestOf t = some [⟨"system", PROMPT⟩, ⟨"user", pyStrip t⟩] := by
  unfold requestOf
  simp only [if_neg h]

/-- Witness for the amended C6 at a concrete request text. -/
theorem c6_witness :
    pyStrip "squat 5x5" ≠ "" ∧
    requestOf "squat 5x5" = some [⟨"system", PROMPT⟩, ⟨"user", pyStrip "squat 5x5"⟩] :=
  ⟨by decide, c6_two_messages "squat 5x5" (by decide)⟩

/-- Claim C7: whenever the handler returns a payload, it has at most as
many records as the candidate list, and every record comes from some
candidate element. -/
theorem c7_no_fabrication (raw : String) (cand : List Json)
    (h : pyIterate (extractCandidate (normalizeRaw raw)) = Except.ok cand) :
    postCall raw = Except.ok (validateItems cand) ∧
    (validateItems cand).length ≤ cand.length ∧
    ∀ p ∈ validateItems cand, ∃ j ∈ cand, mkParsedSet j = some p := by
  refine ⟨?_, ?_, ?_⟩
  · unfold postCall
    rw [h]
  · rw [validateItems_eq_filterMap]
    exact List.length_filterMap_le _ _
  · intro p hp
    rw [validateItems_eq_filterMap] at hp
    exact List.mem_filterMap.mp hp

/-- Witness for C7 at a concrete raw output with three candidates. -/
theorem c7_witness :
    pyIterate (extractCandidate (normalizeRaw c7Raw)) = Except.ok c7Cand ∧
    (postCall c7Raw = Except.ok (validateItems c7Cand) ∧
     (validateItems c7Cand).length ≤ c7Cand.length ∧
     ∀ p ∈ validateItems c7Cand, ∃ j ∈ c7Cand, mkParsedSet j = some p) :=
  ⟨rfl, c7_no_fabrication c7Raw c7Cand rfl⟩

/-- Claim C8: a missing or empty credential makes module initialization
raise, and a process that did start had a nonempty credential. -/
theorem c8_fatal_startup (envVal : Option String) :
    ((envVal = none ∨ envVal = some "") →
      startupCheck envVal = Except.error "Missing OPENAI_API_KEY env var.") ∧
    (∀ key, startupCheck envVal = Except.ok key → envVal ≠ none ∧ envVal ≠ some "") := by
  constructor
  · rintro (rfl | rfl) <;> rfl
  · intro key h
    unfold startupCheck at h
    by_cases hf : envFalsy envVal = true
    · rw [if_pos hf] at h
      cases h
    · constructor
      · intro hc
        exact hf (by rw [hc]; rfl)
      · intro hc
        exact hf (by rw [hc]; rfl)

/-- Witness for C8 at an absent credential. -/
theorem c8_witness :
    (none = (none : Option String) ∨ (none : Option String) = some "") ∧
    startupCheck none = Except.error "Missing OPENAI_API_KEY env var." :=
  ⟨Or.inl rfl, (c8_fatal_startup none).1 (Or.inl rfl)⟩

/-- Claim C9: a decoded object whose sets entry is falsy (null, an
empty list, an empty string, zero, false or an empty dict) yields an
empty result rather than an exception or the bare-array fallback. -/
theorem c9_falsy_sets (raw : String) (kvs : List (String × Json)) (v : Json)
    (h1 : loads raw = some (Json.obj kvs)) (h2 : lookupKey kvs "sets" = some v)
    (h3 : pyTruthy v = false) :
    postCall raw = Except.ok [] := by
  unfold postCall
  rw [normalizeRaw_of_loads h1]
  simp [extractCandidate, h2, h3, pyIterate, validateItems]

/-- Witness for C9 at a raw output whose sets entry is null. -/
theorem c9_witness :
    loads "\x7b\"sets\": null\x7d" = some (Json.obj [("sets", Json.null)]) ∧
    postCall "\x7b\"sets\": null\x7d" = Except.ok [] :=
  ⟨rfl, c9_falsy_sets "\x7b\"sets\": null\x7d" [("sets", Json.null)] Json.null rfl rfl rfl⟩

/-- A validated required string field was exactly that string. -/
theorem reqStr_inv {kvs : List (String × Json)} {k : String} {s : String}
    (h : reqStr kvs k = some s) : lookupKey kvs k = some (Json.str s) := by
  unfold reqStr at h
  split at h
  · next s' heq =>
    injection h with h2
    subst h2
    exact heq
  · exact Option.noConfusion h

/-- A validated required nullable string field was null or that string. -/
theorem reqOptStr_inv {kvs : List (String × Json)} {k : String} {x : Option String}
    (h : reqOptStr kvs k = some x) :
    (lookupKey kvs k = some Json.null ∧ x = none) ∨
    ∃ s, lookupKey kvs k = some (Json.str s) ∧ x = some s := by
  unfold reqOptStr at h
  split at h
  · next heq =>
    injection h with h2
    exact Or.inl ⟨heq, h2.symm⟩
  · next s' heq =>
    injection h with h2
    exact Or.inr ⟨s', heq, h2.symm⟩
  · exact Option.noConfusion h

/-- A validated required numeric field was exactly that number. -/
theorem reqNum_inv {kvs : List (String × Json)} {k : String} {q : ℚ}
    (h : reqNum kvs k = some q) : lookupKey kvs k = some (Json.num q) := by
  unfold reqNum at h
  split at h
  · next q' heq =>
    injection h with h2
    subst h2
    exact heq
  · exact Option.noConfusion h

/-- A validated required integer field was exactly that integral number. -/
theorem reqInt_inv {kvs : List (String × Json)} {k : String} {z : ℤ}
    (h : reqInt kvs k = some z) : lookupKey kvs k = some (Json.num (z : ℚ)) := by
  unfold reqInt at h
  split at h
  · next q heq =>
    split at h
    · next hden =>
      injection h with h2
      subst h2
      have hq : ((q.num : ℚ)) = q := (Rat.den_eq_one_iff q).mp hden
      rw [heq, hq]
    · exact Option.noConfusion h
  · exact Option.noConfusion h

/-- A validated defaulted string field was absent, null or that string. -/
theorem optStrD_inv {kvs : List (String × Json)} {k : String} {x : Option String}
    (h : optStrD kvs k = some x) : strFieldPres kvs k x := by
  unfold optStrD at h
  unfold strFieldPres
  split at h
  · next heq =>
    injection h with h2
    exact Or.inl ⟨heq, h2.symm⟩
  · next heq =>
    injection h with h2
    exact Or.inr (Or.inl ⟨heq, h2.symm⟩)
  · next s' heq =>
    injection h with h2
    exact Or.inr (Or.inr ⟨s', heq, h2.symm⟩)
  · exact Option.noConfusion h

/-- A validated defaulted boolean field was absent or that boolean. -/
theorem optBoolD_inv {kvs : List (String × Json)} {k : String} {b : Bool}
    (h : optBoolD kvs k = some b) :
    (lookupKey kvs k = none ∧ b = false) ∨ lookupKey kvs k = some (Json.bool b) := by
  unfold optBoolD at h
  split at h
  · next heq =>
    injection h with h2
    exact Or.inl ⟨heq, h2.symm⟩
  · next b' heq =>
    injection h with h2
    subst h2
    exact Or.inr heq
  · exact Option.noConfusion h

/-- Validation passes every field value through unchanged. -/
theorem mkParsedSet_preserves (kvs : List (String × Json)) (p : ParsedSet)
    (h : mkParsedSet (Json.obj kvs) = some p) : fieldsPreserved kvs p := by
  simp only [mkParsedSet] at h
  rcases hd : reqOptStr kvs "date" with _ | d <;> rw [hd] at h
  · exact Option.noConfusion h
  rcases hn : reqStr kvs "exercise_name" with _ | n <;> rw [hn] at h
  · exact Option.noConfusion h
  rcases hw : reqNum kvs "weight" with _ | w <;> rw [hw] at h
  · exact Option.noConfusion h
  rcases hru : reqInt kvs "reps_unassisted" with _ | ru <;> rw [hru] at h
  · exact Option.noConfusion h
  rcases hra : reqInt kvs "reps_assisted" with _ | ra <;> rw [hra] at h
  · exact Option.noConfusion h
  rcases hrt : reqInt kvs "reps_total" with _ | rt <;> rw [hrt] at h
  · exact Option.noConfusion h
  rcases htn : optStrD kvs "tempo_notes" with _ | tn <;> rw [htn] at h
  · exact Option.noConfusion h
  rcases hfl : optBoolD kvs "injury_flag" with _ | fl <;> rw [hfl] at h
  · exact Option.noConfusion h
  rcases hinj : optStrD kvs "injury_notes" with _ | inj <;> rw [hinj] at h
  · exact Option.noConfusion h
  rcases heqp : optStrD kvs "equipment" with _ | eqp <;> rw [heqp] at h
  · exact Option.noConfusion h
  rcases hsl : optStrD kvs "source_line" with _ | sl <;> rw [hsl] at h
  · exact Option.noConfusion h
  rcases hnts : optStrD kvs "notes" with _ | nts <;> rw [hnts] at h
  · exact Option.noConfusion h
  injection h with h2
  subst h2
  exact ⟨reqOptStr_inv hd, reqStr_inv hn, reqNum_inv hw, reqInt_inv hru,
    reqInt_inv hra, reqInt_inv hrt, optStrD_inv htn, optBoolD_inv hfl,
    optStrD_inv hinj, optStrD_inv heqp, optStrD_inv hsl, optStrD_inv hnts⟩

/-- Claim C1: a raw output that strict-decodes to an object with a sets
array normalizes to exactly the validated elements of that array, in
order, and each validated record carries its candidate field values
unchanged. -/
theorem c1_sets_passthrough (raw : String) (kvs : List (String × Json)) (l : List Json)
    (h1 : loads raw = some (Json.obj kvs))
    (h2 : lookupKey kvs "sets" = some (Json.arr l)) :
    postCall raw = Except.ok (List.filterMap mkParsedSet l) ∧
    ∀ j ∈ l, ∀ p, mkParsedSet j = some p →
      ∃ kvs2, j = Json.obj kvs2 ∧ fieldsPreserved kvs2 p := by
  constructor
  · unfold postCall
    rw [normalizeRaw_of_loads h1]
    by_cases hl : l = []
    · subst hl
      simp [extractCandidate, h2, pyTruthy, pyIterate, validateItems]
    · have ht : pyTruthy (Json.arr l) = true := by
        cases l with
        | nil => exact absurd rfl hl
        | cons a as => rfl
      simp [extractCandidate, h2, ht, pyIterate, validateItems_eq_filterMap]
  · intro j hj p hp
    rcases j with _ | b | q | s | l2 | kvs2
    · exact Option.noConfusion hp
    · exact Option.noConfusion hp
    · exact Option.noConfusion hp
    · exact Option.noConfusion hp
    · exact Option.noConfusion hp
    · exact ⟨kvs2, rfl, mkParsedSet_preserves kvs2 p hp⟩

set_option maxRecDepth 8192 in
/-- Witness for C1 at the worked example of the specification. -/
theorem c1_witness :
    loads exRaw1 = some (Json.obj [("sets", Json.arr [Json.obj exItem1])]) ∧
    postCall exRaw1 = Except.ok (List.filterMap mkParsedSet [Json.obj exItem1]) ∧
    List.filterMap mkParsedSet [Json.obj exItem1] = [exSet1] :=
  ⟨rfl, (c1_sets_passthrough exRaw1 [("sets", Json.arr [Json.obj exItem1])]
    [Json.obj exItem1] rfl rfl).1, rfl⟩

/-- Appending an entry under a fresh key does not change lookups. -/
theorem lookupKey_append_ne {kvs : List (String × Json)} {k f : String} (v : Json)
    (h : k ≠ f) : lookupKey (kvs ++ [(k, v)]) f = lookupKey kvs f := by
  induction kvs with
  | nil => simp [lookupKey, h]
  | cons kv rest ih =>
    obtain ⟨k0, v0⟩ := kv
    by_cases h0 : k0 = f <;> simp [lookupKey, h0, ih]

/-- Claim C10: an element that validates keeps validating, to the same
record, when extra non-schema keys are added; the unknown keys are
dropped from the output. -/
theorem c10_extra_keys (kvs : List (String × Json)) (p : ParsedSet) (k : String) (v : Json)
    (h : mkParsedSet (Json.obj kvs) = some p) (hk : isSchemaField k = false) :
    mkParsedSet (Json.obj (kvs ++ [(k, v)])) = some p ∧
    validateItems [Json.obj (kvs ++ [(k, v)])] = [p] := by
  simp only [isSchemaField, Bool.or_eq_false_iff, decide_eq_false_iff_not] at hk
  obtain ⟨⟨⟨⟨⟨⟨⟨⟨⟨⟨⟨h1, h2⟩, h3⟩, h4⟩, h5⟩, h6⟩, h7⟩, h8⟩, h9⟩, h10⟩, h11⟩, h12⟩ := hk
  have hmk : mkParsedSet (Json.obj (kvs ++ [(k, v)])) = some p := by
    simp only [mkParsedSet] at h ⊢
    rw [show reqOptStr (kvs ++ [(k, v)]) "date" = reqOptStr kvs "date" from by
          unfold reqOptStr; rw [lookupKey_append_ne v h1],
        show reqStr (kvs ++ [(k, v)]) "exercise_name" = reqStr kvs "exercise_name" from by
          unfold reqStr; rw [lookupKey_append_ne v h2],
        show reqNum (kvs ++ [(k, v)]) "weight" = reqNum kvs "weight" from by
          unfold reqNum; rw [lookupKey_append_ne v h3],
        show reqInt (kvs ++ [(k, v)]) "reps_unassisted" = reqInt kvs "reps_unassisted" from by
          unfold reqInt; rw [lookupKey_append_ne v h4],
        show reqInt (kvs ++ [(k, v)]) "reps_assisted" = reqInt kvs "reps_assisted" from by
          unfold reqInt; rw [lookupKey_append_ne v h5],
        show reqInt (kvs ++ [(k, v)]) "reps_total" = reqInt kvs "reps_total" from by
          unfold reqInt; rw [lookupKey_append_ne v h6],
        show optStrD (kvs ++ [(k, v)]) "tempo_notes" = optStrD kvs "tempo_notes" from by
          unfold optStrD; rw [lookupKey_append_ne v h7],
        show optBoolD (kvs ++ [(k, v)]) "injury_flag" = optBoolD kvs "injury_flag" from by
          unfold optBoolD; rw [lookupKey_append_ne v h8],
        show optStrD (kvs ++ [(k, v)]) "injury_notes" = optStrD kvs "injury_notes" from by
          unfold optStrD; rw [lookupKey_append_ne v h9],
        show optStrD (kvs ++ [(k, v)]) "equipment" = optStrD kvs "equipment" from by
          unfold optStrD; rw [lookupKey_append_ne v h10],
        show optStrD (kvs ++ [(k, v)]) "source_line" = optStrD kvs "source_line" from by
          unfold optStrD; rw [lookupKey_append_ne v h11],
        show optStrD (kvs ++ [(k, v)]) "notes" = optStrD kvs "notes" from by
          unfold optStrD; rw [lookupKey_append_ne v h12]]
    exact h
  refine ⟨hmk, ?_⟩
  simp [validateItems, hmk]

/-- Witness for C10: the worked example still validates to the same
record with one extra key attached. -/
theorem c10_witness :
    isSchemaField "bonus" = false ∧
    mkParsedSet (Json.obj exItem1) = some exSet1 ∧
    (mkParsedSet (Json.obj (exItem1 ++ [("bonus", Json.num 7)])) = some exSet1 ∧
     validateItems [Json.obj (exItem1 ++ [("bonus", Json.num 7)])] = [exSet1]) :=
  ⟨rfl, rfl, c10_extra_keys exItem1 exSet1 "bonus" (Json.num 7) rfl rfl⟩

/-- A successful literal expectation consumed exactly the literal. -/
theorem expectLit_inv : ∀ (lit cs r : List Char), expectLit lit cs = some r → cs = lit ++ r := by
  intro lit
  induction lit with
  | nil =>
    intro cs r h
    rw [List.nil_append]
    exact Option.some.inj h
  | cons l ls ih =>
    intro cs r h
    rcases cs with _ | ⟨c, rest⟩
    · exact Option.noConfusion h
    · simp only [expectLit] at h
      by_cases hc : c = l
      · rw [if_pos hc] at h
        rw [hc, List.cons_append]
        exact congrArg (List.cons l) (ih rest r h)
      · rw [if_neg hc] at h
        exact Option.noConfusion h

/-- Suffix composition. -/
theorem tail_trans {a b c : List Char} (h1 : ∃ p, a = p ++ b) (h2 : ∃ p, b = p ++ c) :
    ∃ p, a = p ++ c := by
  obtain ⟨p1, hp1⟩ := h1
  obtain ⟨p2, hp2⟩ := h2
  exact ⟨p1 ++ p2, by rw [hp1, hp2, List.append_assoc]⟩

/-- Skipping whitespace leaves a suffix. -/
theorem tail_skipWs (cs : List Char) : ∃ p, cs = p ++ skipWs cs :=
  ⟨cs.takeWhile isJsonWs, (List.takeWhile_append_dropWhile _ _).symm⟩

/-- A suffix is still a suffix after prepending a character. -/
theorem tail_cons (c0 : Char) {a b : List Char} (h : ∃ p, a = p ++ b) :
    ∃ p, c0 :: a = p ++ b := by
  obtain ⟨p, hp⟩ := h
  exact ⟨c0 :: p, by rw [hp]; rfl⟩

/-- Forget the final character of an ends-with decomposition. -/
theorem tail_of_ends {P : Char → Prop} {cs r : List Char}
    (h : ∃ pre c, cs = pre ++ c :: r ∧ P c) : ∃ p, cs = p ++ r := by
  obtain ⟨pre, c, hcs, _⟩ := h
  exact ⟨pre ++ [c], by rw [hcs]; simp⟩

/-- Decompose the input at the head of its whitespace-skipped suffix. -/
theorem skipWs_head {r1 : List Char} {c2 : Char} {r2 : List Char} (h : skipWs r1 = c2 :: r2) :
    ∃ tw, r1 = tw ++ c2 :: r2 := by
  refine ⟨r1.takeWhile isJsonWs, ?_⟩
  conv_lhs => rw [← List.takeWhile_append_dropWhile (p := isJsonWs) (l := r1)]
  rw [show List.dropWhile isJsonWs r1 = c2 :: r2 from h]

/-- Suffix through the whitespace-skipped head. -/
theorem tail_of_head {r1 : List Char} {c2 : Char} {r2 : List Char} (h : skipWs r1 = c2 :: r2) :
    ∃ p, r1 = p ++ r2 := by
  obtain ⟨tw, htw⟩ := skipWs_head h
  exact ⟨tw ++ [c2], by rw [htw]; simp⟩

/-- The character before the remaining input, when it is the head of
the whitespace-skipped suffix. -/
theorem ends_final {r1 : List Char} {c2 : Char} {r2 : List Char} (h : skipWs r1 = c2 :: r2)
    (hc : c2 ≠ btChar) : ∃ pre c, r1 = pre ++ c :: r2 ∧ c ≠ btChar := by
  obtain ⟨tw, htw⟩ := skipWs_head h
  exact ⟨tw, c2, htw, hc⟩

/-- An ends-with decomposition propagates to any longer input. -/
theorem ends_through_tail {P : Char → Prop} {cs mid rF : List Char} (h1 : ∃ p, cs = p ++ mid)
    (h2 : ∃ pre c, mid = pre ++ c :: rF ∧ P c) :
    ∃ pre c, cs = pre ++ c :: rF ∧ P c := by
  obtain ⟨p1, hp1⟩ := h1
  obtain ⟨p2, c, hp2, hc⟩ := h2
  exact ⟨p1 ++ p2, c, by rw [hp1, hp2, List.append_assoc], hc⟩

/-- Digits are not backticks. -/
theorem digit_ne_bt {c : Char} (h : c.isDigit = true) : c ≠ btChar := by
  intro hc
  subst hc
  exact absurd h (by decide)

/-- A successful digit run is a nonempty all-digit prefix. -/
theorem parseDigits_inv {cs ds r : List Char} (h : parseDigits cs = some (ds, r)) :
    cs = ds ++ r ∧ ds ≠ [] ∧ ∀ c ∈ ds, c.isDigit = true := by
  unfold parseDigits at h
  rcases hts : cs.takeWhile Char.isDigit with _ | ⟨d0, ds0⟩
  · rw [hts] at h
    exact Option.noConfusion h
  · rw [hts] at h
    injection h with h2
    injection h2 with ha hb
    subst ha
    subst hb
    refine ⟨?_, by simp, ?_⟩
    · conv_lhs => rw [← List.takeWhile_append_dropWhile (p := Char.isDigit) (l := cs)]
      rw [hts]
    · intro c hc
      apply List.mem_takeWhile_imp (p := Char.isDigit) (l := cs)
      rw [hts]
      exact hc

/-- An input that is a nonempty digit run followed by the remainder
ends, before the remainder, with a digit. -/
theorem ends_digits {r2 ds r3 : List Char} (hr2 : r2 = ds ++ r3) (hne : ds ≠ [])
    (hdig : ∀ c ∈ ds, c.isDigit = true) :
    ∃ pre c, r2 = pre ++ c :: r3 ∧ c.isDigit = true := by
  refine ⟨ds.dropLast, ds.getLast hne, ?_, hdig _ (List.getLast_mem hne)⟩
  rw [hr2]
  conv_lhs => rw [← List.dropLast_append_getLast hne]
  rw [List.append_assoc]
  rfl

/-- The exponent part consumes nothing or ends with a digit. -/
theorem parseExpPart_inv {q : ℚ} {cs : List Char} {q2 : ℚ} {r : List Char}
    (h : parseExpPart q cs = some (q2, r)) :
    r = cs ∨ ∃ pre c, cs = pre ++ c :: r ∧ c.isDigit = true := by
  rcases cs with _ | ⟨c, r0⟩
  · left
    injection h with h2
    injection h2 with ha hb
    exact hb.symm
  · simp only [parseExpPart] at h
    by_cases he : c = 'e' ∨ c = 'E'
    · rw [if_pos he] at h
      rcases r0 with _ | ⟨s, r2⟩
      · exact Option.noConfusion h
      · simp only [] at h
        by_cases hp : s = '+'
        · rw [if_pos hp] at h
          rcases hpd : parseDigits r2 with _ | ⟨ds, r3⟩ <;> rw [hpd] at h
          · exact Option.noConfusion h
          · injection h with h2
            injection h2 with ha hb
            subst hb
            obtain ⟨hr2, hne, hdig⟩ := parseDigits_inv hpd
            exact Or.inr (ends_through_tail ⟨[c, s], rfl⟩ (ends_digits hr2 hne hdig))
        · rw [if_neg hp] at h
          by_cases hm : s = '-'
          · rw [if_pos hm] at h
            rcases hpd : parseDigits r2 with _ | ⟨ds, r3⟩ <;> rw [hpd] at h
            · exact Option.noConfusion h
            · injection h with h2
              injection h2 with ha hb
              subst hb
              obtain ⟨hr2, hne, hdig⟩ := parseDigits_inv hpd
              exact Or.inr (ends_through_tail ⟨[c, s], rfl⟩ (ends_digits hr2 hne hdig))
          · rw [if_neg hm] at h
            rcases hpd : parseDigits (s :: r2) with _ | ⟨ds, r3⟩ <;> rw [hpd] at h
            · exact Option.noConfusion h
            · injection h with h2
              injection h2 with ha hb
              subst hb
              obtain ⟨hr2, hne, hdig⟩ := parseDigits_inv hpd
              exact Or.inr (ends_through_tail ⟨[c], rfl⟩ (ends_digits hr2 hne hdig))
    · rw [if_neg he] at h
      left
      injection h with h2
      injection h2 with ha hb
      exact hb.symm

/-- The fraction-exponent part consumes nothing or ends with a digit. -/
theorem parseFracPart_inv {ip : ℚ} {cs : List Char} {q2 : ℚ} {r : List Char}
    (h : parseFracPart ip cs = some (q2, r)) :
    r = cs ∨ ∃ pre c, cs = pre ++ c :: r ∧ c.isDigit = true := by
  rcases cs with _ | ⟨c, r0⟩
  · left
    injection h with h2
    injection h2 with ha hb
    exact hb.symm
  · simp only [parseFracPart] at h
    by_cases hdot : c = '.'
    · rw [if_pos hdot] at h
      rcases hpd : parseDigits r0 with _ | ⟨ds, r2⟩ <;> rw [hpd] at h
      · exact Option.noConfusion h
      · obtain ⟨hr0, hne, hdig⟩ := parseDigits_inv hpd
        rcases parseExpPart_inv h with hr | hends
        · subst hr
          exact Or.inr (ends_through_tail ⟨[c], rfl⟩ (ends_digits hr0 hne hdig))
        · exact Or.inr (ends_through_tail ⟨c :: ds, by rw [hr0]; rfl⟩ hends)
    · rw [if_neg hdot] at h
      exact parseExpPart_inv h

/-- A successful unsigned number ends with a digit. -/
theorem parseNumAbs_inv {cs : List Char} {q : ℚ} {r : List Char}
    (h : parseNumAbs cs = some (q, r)) :
    ∃ pre c, cs = pre ++ c :: r ∧ c.isDigit = true := by
  rcases cs with _ | ⟨c, r0⟩
  · exact Option.noConfusion h
  · simp only [parseNumAbs] at h
    by_cases h0 : c = '0'
    · rw [if_pos h0] at h
      rcases parseFracPart_inv h with hr | hends
      · subst hr
        exact ⟨[], c, rfl, by rw [h0]; decide⟩
      · exact ends_through_tail ⟨[c], rfl⟩ hends
    · rw [if_neg h0] at h
      by_cases hd : c.isDigit = true
      · rw [if_pos hd] at h
        rcases hpd : parseDigits (c :: r0) with _ | ⟨ds, r1⟩ <;> rw [hpd] at h
        · exact Option.noConfusion h
        · obtain ⟨hcs, hne, hdig⟩ := parseDigits_inv hpd
          rcases parseFracPart_inv h with hr | hends
          · subst hr
            exact ends_digits hcs hne hdig
          · exact ends_through_tail ⟨ds, hcs⟩ hends
      · rw [if_neg (by simpa using hd)] at h
        exact Option.noConfusion h

/-- A successful number ends with a digit. -/
theorem parseNum_ends {cs : List Char} {q : ℚ} {r : List Char}
    (h : parseNum cs = some (q, r)) :
    ∃ pre c, cs = pre ++ c :: r ∧ c.isDigit = true := by
  rcases cs with _ | ⟨c, r0⟩
  · exact Option.noConfusion h
  · simp only [parseNum] at h
    by_cases hm : c = '-'
    · rw [if_pos hm] at h
      rcases hab : parseNumAbs r0 with _ | ⟨q1, r1⟩ <;> rw [hab] at h
      · exact Option.noConfusion h
      · injection h with h2
        injection h2 with ha hb
        subst hb
        exact ends_through_tail ⟨[c], rfl⟩ (parseNumAbs_inv hab)
    · rw [if_neg hm] at h
      exact parseNumAbs_inv h

/-- A successful string body ends, before the remaining input, with the
closing quote. -/
theorem parseStringBody_ends : ∀ (fuel : Nat) (cs sl r : List Char),
    parseStringBody fuel cs = some (sl, r) → ∃ pre, cs = pre ++ '"' :: r := by
  intro fuel
  induction fuel with
  | zero =>
    intro cs sl r h
    exact Option.noConfusion h
  | succ fuel ih =>
    intro cs sl r h
    rcases cs with _ | ⟨c, cs1⟩
    · exact Option.noConfusion h
    · simp only [parseStringBody] at h
      by_cases hq : c = '"'
      · rw [if_pos hq] at h
        injection h with h2
        injection h2 with ha hb
        subst hb
        exact ⟨[], by rw [hq, List.nil_append]⟩
      · rw [if_neg hq] at h
        by_cases hbs : c = '\\'
        · rw [if_pos hbs] at h
          rcases cs1 with _ | ⟨e, cs2⟩
          · exact Option.noConfusion h
          · simp only [] at h
            by_cases hu : e = 'u'
            · rw [if_pos hu] at h
              rcases cs2 with _ | ⟨x1, cs21⟩
              · exact Option.noConfusion h
              rcases cs21 with _ | ⟨x2, cs22⟩
              · exact Option.noConfusion h
              rcases cs22 with _ | ⟨x3, cs23⟩
              · exact Option.noConfusion h
              rcases cs23 with _ | ⟨x4, cs3⟩
              · exact Option.noConfusion h
              simp only [] at h
              rcases hh : hex4 x1 x2 x3 x4 with _ | code <;> rw [hh] at h
              · exact Option.noConfusion h
              · simp only [] at h
                by_cases hlow : code < 0xd800 ∨ 0xe000 ≤ code
                · rw [if_pos hlow] at h
                  rcases hsb : parseStringBody fuel cs3 with _ | ⟨sl2, r2⟩ <;> rw [hsb] at h
                  · exact Option.noConfusion h
                  · injection h with h2
                    injection h2 with ha hb
                    subst hb
                    obtain ⟨pre, hpre⟩ := ih cs3 sl2 r2 hsb
                    exact ⟨c :: e :: x1 :: x2 :: x3 :: x4 :: pre, by rw [hpre]; rfl⟩
                · rw [if_neg hlow] at h
                  by_cases hhigh : code ≤ 0xdbff
                  · rw [if_pos hhigh] at h
                    rcases cs3 with _ | ⟨b1, cs31⟩
                    · exact Option.noConfusion h
                    rcases cs31 with _ | ⟨u2, cs32⟩
                    · exact Option.noConfusion h
                    rcases cs32 with _ | ⟨x5, cs33⟩
                    · exact Option.noConfusion h
                    rcases cs33 with _ | ⟨x6, cs34⟩
                    · exact Option.noConfusion h
                    rcases cs34 with _ | ⟨x7, cs35⟩
                    · exact Option.noConfusion h
                    rcases cs35 with _ | ⟨x8, cs4⟩
                    · exact Option.noConfusion h
                    simp only [] at h
                    by_cases hbu : b1 = '\\' ∧ u2 = 'u'
                    · rw [if_pos hbu] at h
                      rcases hh2 : hex4 x5 x6 x7 x8 with _ | code2 <;> rw [hh2] at h
                      · exact Option.noConfusion h
                      · simp only [] at h
                        by_cases hlo2 : 0xdc00 ≤ code2 ∧ code2 ≤ 0xdfff
                        · rw [if_pos hlo2] at h
                          rcases hsb : parseStringBody fuel cs4 with _ | ⟨sl2, r2⟩ <;> rw [hsb] at h
                          · exact Option.noConfusion h
                          · injection h with h2
                            injection h2 with ha hb
                            subst hb
                            obtain ⟨pre, hpre⟩ := ih cs4 sl2 r2 hsb
                            exact ⟨c :: e :: x1 :: x2 :: x3 :: x4 :: b1 :: u2 :: x5 :: x6 :: x7 :: x8 :: pre,
                              by rw [hpre]; rfl⟩
                        · rw [if_neg hlo2] at h
                          exact Option.noConfusion h
                    · rw [if_neg hbu] at h
                      exact Option.noConfusion h
                  · rw [if_neg hhigh] at h
                    exact Option.noConfusion h
            · rw [if_neg hu] at h
              rcases hec : escChar e with _ | ec <;> rw [hec] at h
              · exact Option.noConfusion h
              · rcases hsb : parseStringBody fuel cs2 with _ | ⟨sl2, r2⟩ <;> rw [hsb] at h
                · exact Option.noConfusion h
                · injection h with h2
                  injection h2 with ha hb
                  subst hb
                  obtain ⟨pre, hpre⟩ := ih cs2 sl2 r2 hsb
                  exact ⟨c :: e :: pre, by rw [hpre]; rfl⟩
        · rw [if_neg hbs] at h
          by_cases hctl : c.toNat < 0x20
          · rw [if_pos hctl] at h
            exact Option.noConfusion h
          · rw [if_neg hctl] at h
            rcases hsb : parseStringBody fuel cs1 with _ | ⟨sl2, r2⟩ <;> rw [hsb] at h
            · exact Option.noConfusion h
            · injection h with h2
              injection h2 with ha hb
              subst hb
              obtain ⟨pre, hpre⟩ := ih cs1 sl2 r2 hsb
              exact ⟨c :: pre, by rw [hpre]; rfl⟩

/-- A successful parse at any level consumes a nonempty prefix whose
last character is never a backtick (it is a closing quote, bracket or
brace, a digit, or the last letter of a keyword). -/
theorem parserEnds : ∀ fuel : Nat,
    (∀ cs v r, parseValue fuel cs = some (v, r) → ∃ pre c, cs = pre ++ c :: r ∧ c ≠ btChar) ∧
    (∀ cs l r, parseElems fuel cs = some (l, r) → ∃ pre c, cs = pre ++ c :: r ∧ c ≠ btChar) ∧
    (∀ cs m r, parseMembers fuel cs = some (m, r) → ∃ pre c, cs = pre ++ c :: r ∧ c ≠ btChar) := by
  intro fuel
  induction fuel with
  | zero =>
    exact ⟨fun cs v r h => Option.noConfusion h, fun cs l r h => Option.noConfusion h,
      fun cs m r h => Option.noConfusion h⟩
  | succ fuel ih =>
    obtain ⟨ihV, ihE, ihM⟩ := ih
    refine ⟨?_, ?_, ?_⟩
    · intro cs v r h
      rcases cs with _ | ⟨c, rest⟩
      · exact Option.noConfusion h
      · simp only [parseValue] at h
        by_cases hn : c = 'n'
        · rw [if_pos hn] at h
          rcases hel : expectLit ['u', 'l', 'l'] rest with _ | r1 <;> rw [hel] at h
          · exact Option.noConfusion h
          · injection h with h2
            injection h2 with ha hb
            subst hb
            have hrest := expectLit_inv _ _ _ hel
            refine ⟨[c, 'u', 'l'], 'l', ?_, by decide⟩
            rw [hrest]
            rfl
        · rw [if_neg hn] at h
          by_cases ht : c = 't'
          · rw [if_pos ht] at h
            rcases hel : expectLit ['r', 'u', 'e'] rest with _ | r1 <;> rw [hel] at h
            · exact Option.noConfusion h
            · injection h with h2
              injection h2 with ha hb
              subst hb
              have hrest := expectLit_inv _ _ _ hel
              refine ⟨[c, 'r', 'u'], 'e', ?_, by decide⟩
              rw [hrest]
              rfl
          · rw [if_neg ht] at h
            by_cases hf : c = 'f'
            · rw [if_pos hf] at h
              rcases hel : expectLit ['a', 'l', 's', 'e'] rest with _ | r1 <;> rw [hel] at h
              · exact Option.noConfusion h
              · injection h with h2
                injection h2 with ha hb
                subst hb
                have hrest := expectLit_inv _ _ _ hel
                refine ⟨[c, 'a', 'l', 's'], 'e', ?_, by decide⟩
                rw [hrest]
                rfl
            · rw [if_neg hf] at h
              by_cases hs : c = '"'
              · rw [if_pos hs] at h
                rcases hsb : parseStringBody (rest.length + 1) rest with _ | ⟨sl, r1⟩ <;> rw [hsb] at h
                · exact Option.noConfusion h
                · injection h with h2
                  injection h2 with ha hb
                  subst hb
                  obtain ⟨pre, hpre⟩ := parseStringBody_ends _ _ _ _ hsb
                  refine ⟨c :: pre, '"', ?_, by decide⟩
                  rw [hpre]
                  rfl
              · rw [if_neg hs] at h
                by_cases hbk : c = '['
                · rw [if_pos hbk] at h
                  rcases hsw : skipWs rest with _ | ⟨c2, r2⟩ <;> rw [hsw] at h
                  · exact Option.noConfusion h
                  · simp only [] at h
                    by_cases hcb : c2 = ']'
                    · rw [if_pos hcb] at h
                      injection h with h2
                      injection h2 with ha hb
                      subst hb
                      refine ends_through_tail (P := fun x => x ≠ btChar) ⟨[c], rfl⟩
                        (ends_final hsw ?_)
                      rw [hcb]
                      decide
                    · rw [if_neg hcb] at h
                      rcases hpe : parseElems fuel (c2 :: r2) with _ | ⟨l1, r1⟩ <;> rw [hpe] at h
                      · exact Option.noConfusion h
                      · injection h with h2
                        injection h2 with ha hb
                        subst hb
                        refine ends_through_tail ?_ (ihE _ _ _ hpe)
                        obtain ⟨tw, htw⟩ := skipWs_head hsw
                        exact ⟨c :: tw, by rw [htw]; rfl⟩
                · rw [if_neg hbk] at h
                  by_cases hob : c = '\x7b'
                  · rw [if_pos hob] at h
                    rcases hsw : skipWs rest with _ | ⟨c2, r2⟩ <;> rw [hsw] at h
                    · exact Option.noConfusion h
                    · simp only [] at h
                      by_cases hcb : c2 = '\x7d'
                      · rw [if_pos hcb] at h
                        injection h with h2
                        injection h2 with ha hb
                        subst hb
                        refine ends_through_tail (P := fun x => x ≠ btChar) ⟨[c], rfl⟩
                          (ends_final hsw ?_)
                        rw [hcb]
                        decide
                      · rw [if_neg hcb] at h
                        rcases hpm : parseMembers fuel (c2 :: r2) with _ | ⟨m1, r1⟩ <;> rw [hpm] at h
                        · exact Option.noConfusion h
                        · injection h with h2
                          injection h2 with ha hb
                          subst hb
                          refine ends_through_tail ?_ (ihM _ _ _ hpm)
                          obtain ⟨tw, htw⟩ := skipWs_head hsw
                          exact ⟨c :: tw, by rw [htw]; rfl⟩
                  · rw [if_neg hob] at h
                    by_cases hnum : c = '-' ∨ c.isDigit
                    · rw [if_pos hnum] at h
                      rcases hpn : parseNum (c :: rest) with _ | ⟨q1, r1⟩ <;> rw [hpn] at h
                      · exact Option.noConfusion h
                      · injection h with h2
                        injection h2 with ha hb
                        subst hb
                        obtain ⟨pre, cd, hcs, hd⟩ := parseNum_ends hpn
                        exact ⟨pre, cd, hcs, digit_ne_bt hd⟩
                    · rw [if_neg hnum] at h
                      exact Option.noConfusion h
    · intro cs l r h
      simp only [parseElems] at h
      rcases hv : parseValue fuel cs with _ | ⟨v1, r1⟩ <;> rw [hv] at h
      · exact Option.noConfusion h
      · simp only [] at h
        rcases hsw : skipWs r1 with _ | ⟨c2, r2⟩ <;> rw [hsw] at h
        · exact Option.noConfusion h
        · simp only [] at h
          by_cases hcb : c2 = ']'
          · rw [if_pos hcb] at h
            injection h with h2
            injection h2 with ha hb
            subst hb
            refine ends_through_tail (tail_of_ends (ihV _ _ _ hv)) (ends_final hsw ?_)
            rw [hcb]
            decide
          · rw [if_neg hcb] at h
            by_cases hcc : c2 = ','
            · rw [if_pos hcc] at h
              rcases hpe : parseElems fuel (skipWs r2) with _ | ⟨l2, r3⟩ <;> rw [hpe] at h
              · exact Option.noConfusion h
              · injection h with h2
                injection h2 with ha hb
                subst hb
                refine ends_through_tail ?_ (ihE _ _ _ hpe)
                exact tail_trans (tail_of_ends (ihV _ _ _ hv))
                  (tail_trans (tail_of_head hsw) (tail_skipWs r2))
            · rw [if_neg hcc] at h
              exact Option.noConfusion h
    · intro cs m r h
      rcases cs with _ | ⟨c, rest⟩
      · exact Option.noConfusion h
      · simp only [parseMembers] at h
        by_cases hqt : c = '"'
        · rw [if_pos hqt] at h
          rcases hsb : parseStringBody (rest.length + 1) rest with _ | ⟨kl, r1⟩ <;> rw [hsb] at h
          · exact Option.noConfusion h
          · simp only [] at h
            rcases hsw : skipWs r1 with _ | ⟨c2, r2⟩ <;> rw [hsw] at h
            · exact Option.noConfusion h
            · simp only [] at h
              by_cases hcol : c2 = ':'
              · rw [if_pos hcol] at h
                rcases hpv : parseValue fuel (skipWs r2) with _ | ⟨v1, r3⟩ <;> rw [hpv] at h
                · exact Option.noConfusion h
                · simp only [] at h
                  rcases hsw2 : skipWs r3 with _ | ⟨c3, r4⟩ <;> rw [hsw2] at h
                  · exact Option.noConfusion h
                  · simp only [] at h
                    have htail1 : ∃ p, rest = p ++ r1 := by
                      obtain ⟨pre, hpre⟩ := parseStringBody_ends _ _ _ _ hsb
                      exact ⟨pre ++ ['"'], by rw [hpre]; simp⟩
                    have htail3 : ∃ p, (c :: rest : List Char) = p ++ r3 :=
                      tail_cons c (tail_trans htail1 (tail_trans (tail_of_head hsw)
                        (tail_trans (tail_skipWs r2) (tail_of_ends (ihV _ _ _ hpv)))))
                    by_cases hcb : c3 = '\x7d'
                    · rw [if_pos hcb] at h
                      injection h with h2
                      injection h2 with ha hb
                      subst hb
                      refine ends_through_tail htail3 (ends_final hsw2 ?_)
                      rw [hcb]
                      decide
                    · rw [if_neg hcb] at h
                      by_cases hcc : c3 = ','
                      · rw [if_pos hcc] at h
                        rcases hpm : parseMembers fuel (skipWs r4) with _ | ⟨m2, r5⟩ <;> rw [hpm] at h
                        · exact Option.noConfusion h
                        · injection h with h2
                          injection h2 with ha hb
                          subst hb
                          refine ends_through_tail ?_ (ihM _ _ _ hpm)
                          exact tail_trans htail3
                            (tail_trans (tail_of_head hsw2) (tail_skipWs r4))
                      · rw [if_neg hcc] at h
                        exact Option.noConfusion h
              · rw [if_neg hcol] at h
                exact Option.noConfusion h
        · rw [if_neg hqt] at h
          exact Option.noConfusion h

/-- Rebuilding a string from its characters is the identity. -/
theorem string_eta (s : String) : String.mk s.data = s := by
  cases s
  rfl

/-- The last element of a list belongs to it. -/
theorem getLast?_mem_local : ∀ (l : List Char) (x : Char), l.getLast? = some x → x ∈ l := by
  intro l
  induction l with
  | nil =>
    intro x h
    exact Option.noConfusion h
  | cons a l ih =>
    intro x h
    rcases l with _ | ⟨b, l2⟩
    · rw [show ([a] : List Char).getLast? = some a from by simp] at h
      injection h with h2
      subst h2
      simp
    · rw [List.getLast?_cons_cons] at h
      exact List.mem_cons_of_mem a (ih x h)

/-- The last element of an appended nonempty suffix. -/
theorem getLast?_append_cons (a : List Char) (c : Char) (b : List Char) :
    (a ++ c :: b).getLast? = (c :: b).getLast? := by
  obtain ⟨x, hx⟩ := Option.isSome_iff_exists.mp ((List.getLast?_isSome (l := c :: b)).mpr (by simp))
  rw [List.getLast?_append, hx]
  rfl

/-- A string accepted by the JSON decoder does not end with a
backtick: its last character is either trailing whitespace or the last
character consumed by the value parser. -/
theorem loads_last {p : String} {v : Json} (h : loads p = some v) :
    p.data.getLast? ≠ some btChar := by
  unfold loads at h
  rcases hpv : parseValue (2 * p.length + 2) (skipWs p.data) with _ | ⟨v1, rest⟩ <;> rw [hpv] at h
  · exact Option.noConfusion h
  · simp only [] at h
    by_cases hws : rest.all isJsonWs = true
    · obtain ⟨pre, c, hdec, hc⟩ := (parserEnds _).1 _ _ _ hpv
      have hp : p.data = p.data.takeWhile isJsonWs ++ (pre ++ c :: rest) := by
        conv_lhs => rw [← List.takeWhile_append_dropWhile (p := isJsonWs) (l := p.data)]
        rw [show List.dropWhile isJsonWs p.data = pre ++ c :: rest from hdec]
      rcases rest with _ | ⟨r0, rest1⟩
      · rw [hp, ← List.append_assoc, getLast?_append_cons]
        intro hlast
        injection hlast with h2
        exact hc h2
      · rw [hp, ← List.append_assoc, getLast?_append_cons, List.getLast?_cons_cons]
        intro hlast
        have hmem := getLast?_mem_local _ _ hlast
        have := List.all_eq_true.mp hws _ hmem
        exact absurd this (by decide)
    · rw [if_neg hws] at h
      exact Option.noConfusion h

/-- The value parser fails immediately on a backtick. -/
theorem parseValue_bt (f : Nat) (rest : List Char) : parseValue f (btChar :: rest) = none := by
  cases f with
  | zero => rfl
  | succ f =>
    simp only [parseValue]
    rw [if_neg (by decide), if_neg (by decide), if_neg (by decide), if_neg (by decide),
        if_neg (by decide), if_neg (by decide), if_neg (by decide)]

/-- The characters of a fence-wrapped payload. -/
theorem wrapFence_data (p : String) :
    (wrapFence p).data = btChar :: btChar :: btChar :: (p.data ++ [btChar, btChar, btChar]) := by
  show (("```" ++ p) ++ "```").data = _
  rw [String.data_append, String.data_append]
  rw [show ("```" : String).data = [btChar, btChar, btChar] from rfl]
  simp

/-- A fence-wrapped payload is never valid JSON. -/
theorem loads_wrap (p : String) : loads (wrapFence p) = none := by
  unfold loads
  rw [show skipWs (wrapFence p).data
      = btChar :: (btChar :: btChar :: (p.data ++ [btChar, btChar, btChar])) from by
    rw [wrapFence_data]
    unfold skipWs
    rw [List.dropWhile_cons, if_neg (by decide)]]
  rw [parseValue_bt]

/-- Stripping fixes a text that starts and ends with a backtick. -/
theorem strip_of_bt_ends (d : List Char) :
    stripChars (btChar :: (d ++ [btChar])) = btChar :: (d ++ [btChar]) := by
  unfold stripChars
  rw [List.dropWhile_cons, if_neg (by decide)]
  have h1 : (btChar :: (d ++ [btChar])).reverse = btChar :: (d.reverse ++ [btChar]) := by
    simp
  rw [h1, List.dropWhile_cons, if_neg (by decide), ← h1, List.reverse_reverse]

/-- Stripping fixes a fence-wrapped payload. -/
theorem pyStrip_wrap (p : String) : pyStrip (wrapFence p) = wrapFence p := by
  unfold pyStrip
  have hshape : btChar :: btChar :: btChar :: (p.data ++ [btChar, btChar, btChar])
      = btChar :: ((btChar :: btChar :: p.data ++ [btChar, btChar]) ++ [btChar]) := by
    simp
  rw [wrapFence_data, hshape, strip_of_bt_ends, ← hshape, ← wrapFence_data, string_eta]

/-- A fence-wrapped payload starts with the fence marker. -/
theorem startsFence_wrap (p : String) : startsFence (wrapFence p).data = true := by
  rw [wrapFence_data]
  rfl

/-- Splitting a fence-wrapped payload after the first fence. -/
theorem splitAfterFence_wrap (p : String) :
    splitAfterFence (wrapFence p).data = some (p.data ++ [btChar, btChar, btChar]) := by
  rw [wrapFence_data]
  rfl

/-- Absence of a fence in the first three characters, and in the tail. -/
theorem hasFence_cons_false {c c2 c3 : Char} {cs3 : List Char}
    (h : hasFence (c :: c2 :: c3 :: cs3) = false) :
    ¬(c = btChar ∧ c2 = btChar ∧ c3 = btChar) ∧ hasFence (c2 :: c3 :: cs3) = false := by
  simp only [hasFence, Bool.or_eq_false_iff] at h
  obtain ⟨h1, h2⟩ := h
  refine ⟨?_, h2⟩
  rintro ⟨ha, hb, hc⟩
  rw [ha, hb, hc] at h1
  simp at h1

/-- Taking up to the closing fence recovers exactly the payload, when
the payload neither contains a fence nor ends with a backtick. -/
theorem takeToFence_append : ∀ (cs : List Char), hasFence cs = false →
    cs.getLast? ≠ some btChar →
    takeToFence (cs ++ [btChar, btChar, btChar]) = cs := by
  intro cs
  induction cs with
  | nil =>
    intro hnf hlast
    rfl
  | cons c cs ih =>
    intro hnf hlast
    rcases cs with _ | ⟨c2, cs2⟩
    · have hc : c ≠ btChar := by
        intro hx
        exact hlast (by rw [hx]; rfl)
      show takeToFence (c :: btChar :: btChar :: [btChar]) = [c]
      simp only [takeToFence]
      rw [if_neg (fun hco => hc hco.1), if_pos (by simp)]
    · rcases cs2 with _ | ⟨c3, cs3⟩
      · have hc2 : c2 ≠ btChar := by
          intro hx
          exact hlast (by rw [List.getLast?_cons_cons, hx]; rfl)
        show takeToFence (c :: c2 :: btChar :: btChar :: [btChar]) = [c, c2]
        simp only [takeToFence]
        rw [if_neg (fun hco => hc2 hco.2.1), if_neg (fun hco => hc2 hco.1),
            if_pos (by simp)]
      · obtain ⟨hcond, htail⟩ := hasFence_cons_false hnf
        have hlast2 : (c2 :: c3 :: cs3).getLast? ≠ some btChar := by
          intro hx
          exact hlast (by rw [List.getLast?_cons_cons]; exact hx)
        show takeToFence (c :: c2 :: c3 :: (cs3 ++ [btChar, btChar, btChar])) = c :: c2 :: c3 :: cs3
        simp only [takeToFence]
        rw [if_neg hcond]
        exact congrArg (List.cons c) (ih htail hlast2)

/-- The fence-extraction step recovers exactly the wrapped payload. -/
theorem fenceSecondPart_wrap {p : String} (hnf : hasFence p.data = false)
    (hlast : p.data.getLast? ≠ some btChar) :
    fenceSecondPart (wrapFence p) = some p := by
  unfold fenceSecondPart
  rw [splitAfterFence_wrap]
  rw [show (some (p.data ++ [btChar, btChar, btChar])).map (fun r => String.mk (takeToFence r))
      = some (String.mk (takeToFence (p.data ++ [btChar, btChar, btChar]))) from rfl]
  rw [takeToFence_append _ hnf hlast, string_eta]

/-- Normalizing a fence-wrapped valid payload decodes the payload. -/
theorem normalizeRaw_wrap {p : String} {v : Json} (hl : loads p = some v)
    (hnf : hasFence p.data = false) :
    normalizeRaw (wrapFence p) = v := by
  simp only [normalizeRaw]
  rw [loads_wrap]
  simp only []
  rw [pyStrip_wrap]
  rw [if_pos (startsFence_wrap p)]
  rw [fenceSecondPart_wrap hnf (loads_last hl)]
  simp only []
  rw [hl]

/-- Claim C4 as amended: for every valid JSON payload that does not
itself contain a triple backtick, wrapping in fence markers and
normalizing yields exactly the same result as normalizing the payload
unwrapped. -/
theorem c4_roundtrip (p : String) (v : Json) (hl : loads p = some v)
    (hnf : hasFence p.data = false) :
    postCall (wrapFence p) = postCall p := by
  unfold postCall
  rw [normalizeRaw_wrap hl hnf, normalizeRaw_of_loads hl]

set_option maxRecDepth 8192 in
/-- Counterexample for C4: a valid JSON payload containing a triple
backtick inside a string value parses to one record unwrapped, but to
none once fence-wrapped, because the extraction stops at the first
fence occurrence inside the payload. -/
theorem c4_counterexample :
    (loads c4Payload).isSome = true ∧
    postCall c4Payload = Except.ok [c4Set] ∧
    postCall (wrapFence c4Payload) = Except.ok [] ∧
    postCall (wrapFence c4Payload) ≠ postCall c4Payload := by
  refine ⟨rfl, rfl, rfl, ?_⟩
  rw [show postCall (wrapFence c4Payload) = Except.ok [] from rfl,
      show postCall c4Payload = Except.ok [c4Set] from rfl]
  decide

set_option maxRecDepth 8192 in
/-- Witness for the amended C4 at a concrete fence-free payload. -/
theorem c4_witness :
    loads "\x7b\"sets\": []\x7d" = some (Json.obj [("sets", Json.arr [])]) ∧
    hasFence ("\x7b\"sets\": []\x7d" : String).data = false ∧
    postCall (wrapFence "\x7b\"sets\": []\x7d") = postCall "\x7b\"sets\": []\x7d" :=
  ⟨rfl, rfl, c4_roundtrip "\x7b\"sets\": []\x7d" (Json.obj [("sets", Json.arr [])]) rfl rfl⟩
